import Mathlib

/-!
Shallow embedding of the plugin-pipeline assembly, validation, trace-log
parsing and dependency-eligibility code of the powerplatform-mcp repository
(src/services/PluginService.ts and src/services/DependencyService.ts).

Remote fetches are abstracted as explicit parameters (the fetched
collections, or oracle functions together with a counter of the remote
calls actually issued); everything after the fetch is translated
statement-by-statement from the TypeScript source.
-/

/-- JavaScript string truthiness for an optional string field:
`undefined`/`null` and the empty string are falsy. -/
def jsTruthyStr (o : Option String) : Bool :=
  match o with
  | none => false
  | some s => !s.isEmpty

/-- JS `String.prototype.split(',')` on a list of characters:
splits at every comma, always returning at least one (possibly empty)
segment. -/
def splitCommaAux : List Char → List (List Char)
  | [] => [[]]
  | c :: rest =>
    let r := splitCommaAux rest
    if c = ',' then [] :: r
    else
      match r with
      | [] => [[c]]
      | seg :: segs => (c :: seg) :: segs

/-- JS `s.split(',')` (string separator, no limit). -/
def jsSplitComma (s : String) : List String :=
  (splitCommaAux s.toList).map (fun cs => String.mk cs)

/-- Expanded `sdkmessageid($select=name)` projection on a step row. -/
structure SdkMessageRef where
  name : Option String
deriving DecidableEq, Repr

/-- A raw `sdkmessageprocessingstep` row as fetched from the remote source
(the fields the pipeline/validation code reads). -/
structure RawStep where
  sdkmessageprocessingstepid : String
  name : String
  stage : Int
  mode : Int
  rank : Int
  statuscode : Int
  filteringattributes : Option String
  supporteddeployment : Int
  sdkmessageid : Option SdkMessageRef
  plugintypeid_value : Option String
  plugintype_typename : Option String
  impersonatinguser_fullname : Option String
deriving DecidableEq, Repr

/-- A raw `sdkmessageprocessingstepimage` row. -/
structure RawImage where
  sdkmessageprocessingstepimageid : String
  name : String
  imagetype : Int
  stepId : String
deriving DecidableEq, Repr

/-- A step together with its bound images (the `{...step, images}` spread
in `getPluginAssemblyComplete`). -/
structure StepWithImages where
  step : RawStep
  images : List RawImage
deriving DecidableEq, Repr

/-- The message name of a step: `step.sdkmessageid?.name`. -/
def RawStep.msgName (s : RawStep) : Option String :=
  s.sdkmessageid.bind (fun m => m.name)

/-- ImageBinder: attach each image to its owning step by the step-id
foreign key (`allSteps.map(step => ({...step, images: allImages.filter(...)}))`). -/
def bindImages (allSteps : List RawStep) (allImages : List RawImage) :
    List StepWithImages :=
  allSteps.map (fun step =>
    { step := step
      images := allImages.filter
        (fun img => img.stepId == step.sdkmessageprocessingstepid) })

/-- The `validation` block of `getPluginAssemblyComplete`. -/
structure Validation where
  hasDisabledSteps : Bool
  hasAsyncSteps : Bool
  hasSyncSteps : Bool
  stepsWithoutFilteringAttributes : List String
  stepsWithoutImages : List String
  potentialIssues : List String
deriving DecidableEq, Repr

/-- Whether a step's message is Update or Delete
(`msgName === 'Update' || msgName === 'Delete'`). -/
def isUpdateOrDelete (msg : Option String) : Bool :=
  msg == some "Update" || msg == some "Delete"

/-- Summary line pushed when `stepsWithoutFilteringAttributes` is non-empty. -/
def filteringIssueLine (n : Nat) : String :=
  s!"{n} Update/Delete steps without filtering attributes (performance concern)"

/-- Summary line pushed when `stepsWithoutImages` is non-empty. -/
def imagesIssueLine (n : Nat) : String :=
  s!"{n} Update/Delete steps without images (may need entity data)"

/-- The validation checks of `getPluginAssemblyComplete`
(PluginService.ts lines 135-172), over the steps with bound images. -/
def computeValidation (stepsWithImages : List StepWithImages) : Validation :=
  let allSteps := stepsWithImages.map (fun s => s.step)
  let noFilt := (stepsWithImages.filter (fun s =>
      isUpdateOrDelete s.step.msgName && !jsTruthyStr s.step.filteringattributes)).map
      (fun s => s.step.name)
  let noImg := (stepsWithImages.filter (fun s =>
      s.images.length == 0 && isUpdateOrDelete s.step.msgName)).map
      (fun s => s.step.name)
  { hasDisabledSteps := allSteps.any (fun s => s.statuscode != (1 : Int))
    hasAsyncSteps := allSteps.any (fun s => s.mode == (1 : Int))
    hasSyncSteps := allSteps.any (fun s => s.mode == (0 : Int))
    stepsWithoutFilteringAttributes := noFilt
    stepsWithoutImages := noImg
    potentialIssues :=
      (if 0 < noFilt.length then [filteringIssueLine noFilt.length] else []) ++
      (if 0 < noImg.length then [imagesIssueLine noImg.length] else []) }

/-- Result shape of the step/image/validation part of
`getPluginAssemblyComplete`. -/
structure AssemblyCompleteResult where
  steps : List StepWithImages
  validation : Validation
deriving DecidableEq, Repr

/-- Embedding of `getPluginAssemblyComplete` from the step fetch onward
(PluginService.ts lines 109-180): the image fetch is issued only when the
step-id set is non-empty. Returns the result together with the number of
image queries issued. -/
def getPluginAssemblyComplete (allSteps : List RawStep)
    (fetchImages : List String → List RawImage) :
    AssemblyCompleteResult × Nat :=
  let stepIds := allSteps.map (fun s => s.sdkmessageprocessingstepid)
  let fetched := if 0 < stepIds.length then (fetchImages stepIds, 1) else ([], 0)
  let stepsWithImages := bindImages allSteps fetched.1
  ({ steps := stepsWithImages, validation := computeValidation stepsWithImages },
   fetched.2)

/-- Projection `pluginassemblyid($select=name,version)` resolved per plugin
type in `getEntityPluginPipeline`. -/
structure AssemblyInfo where
  name : Option String
  version : Option String
deriving DecidableEq, Repr

/-- A step as formatted by `getEntityPluginPipeline`
(PluginService.ts lines 238-287). -/
structure FormattedStep where
  sdkmessageprocessingstepid : String
  name : String
  stage : Int
  stageName : String
  mode : Int
  modeName : String
  rank : Int
  message : Option String
  pluginType : Option String
  assemblyName : Option String
  assemblyVersion : Option String
  filteringAttributes : List String
  statuscode : Int
  enabled : Bool
  deployment : String
  impersonatingUser : Option String
  hasPreImage : Bool
  hasPostImage : Bool
  images : List RawImage
deriving DecidableEq, Repr

/-- Stage labeling: `stage === 10 ? 'PreValidation' : stage === 20 ?
'PreOperation' : 'PostOperation'`. -/
def stageNameOf (stage : Int) : String :=
  if stage == 10 then "PreValidation"
  else if stage == 20 then "PreOperation"
  else "PostOperation"

/-- Deployment labeling: `0 ? 'Server' : 1 ? 'Offline' : 'Both'`. -/
def deploymentNameOf (d : Int) : String :=
  if d == 0 then "Server" else if d == 1 then "Offline" else "Both"

/-- First-occurrence deduplication, as `[...new Set(xs)]` in JS. -/
def dedupFirst (xs : List String) : List String :=
  xs.foldl (fun acc x => if acc.contains x then acc else acc ++ [x]) []

/-- The step formatter of `getEntityPluginPipeline`, given the resolved
plugin-type-to-assembly map and the fetched images. -/
def formatStep (assemblyMap : List (String × Option AssemblyInfo))
    (allImages : List RawImage) (step : RawStep) : FormattedStep :=
  let assembly : Option AssemblyInfo :=
    match step.plugintypeid_value with
    | none => none
    | some tid =>
      match assemblyMap.lookup tid with
      | none => none
      | some a => a
  let images := allImages.filter
    (fun img => img.stepId == step.sdkmessageprocessingstepid)
  { sdkmessageprocessingstepid := step.sdkmessageprocessingstepid
    name := step.name
    stage := step.stage
    stageName := stageNameOf step.stage
    mode := step.mode
    modeName := if step.mode == 0 then "Synchronous" else "Asynchronous"
    rank := step.rank
    message := step.msgName
    pluginType := step.plugintype_typename
    assemblyName := assembly.bind (fun a => a.name)
    assemblyVersion := assembly.bind (fun a => a.version)
    filteringAttributes :=
      match step.filteringattributes with
      | none => []
      | some s => if s.isEmpty then [] else jsSplitComma s
    statuscode := step.statuscode
    enabled := step.statuscode == 1
    deployment := deploymentNameOf step.supporteddeployment
    impersonatingUser := step.impersonatinguser_fullname
    hasPreImage := images.any (fun img => img.imagetype == 0 || img.imagetype == 2)
    hasPostImage := images.any (fun img => img.imagetype == 1 || img.imagetype == 2)
    images := images }

/-- The three stage buckets of a message group. -/
structure StageBuckets where
  preValidation : List FormattedStep
  preOperation : List FormattedStep
  postOperation : List FormattedStep
deriving DecidableEq, Repr

/-- One entry of the `messageGroups` map (keyed by the step's message,
which may be the absent value). -/
structure MessageGroup where
  messageName : Option String
  stages : StageBuckets
deriving DecidableEq, Repr

/-- Push a step into the bucket matching its stage (10/20/40); any other
stage value is pushed into no bucket. -/
def pushStage (g : MessageGroup) (step : FormattedStep) : MessageGroup :=
  if step.stage == 10 then
    { g with stages := { g.stages with
        preValidation := g.stages.preValidation ++ [step] } }
  else if step.stage == 20 then
    { g with stages := { g.stages with
        preOperation := g.stages.preOperation ++ [step] } }
  else if step.stage == 40 then
    { g with stages := { g.stages with
        postOperation := g.stages.postOperation ++ [step] } }
  else g

/-- One iteration of the grouping loop (PluginService.ts lines 302-317):
create the group for the step's message if absent, then push the step
into the stage bucket. The groups list models the insertion-ordered JS
`Map`. -/
def addToGroups (groups : List MessageGroup) (step : FormattedStep) :
    List MessageGroup :=
  if groups.any (fun g => g.messageName == step.message) then
    groups.map (fun g =>
      if g.messageName == step.message then pushStage g step else g)
  else
    groups ++ [pushStage { messageName := step.message
                           stages := ⟨[], [], []⟩ } step]

/-- The whole grouping loop over the formatted steps. -/
def buildMessageGroups (steps : List FormattedStep) : List MessageGroup :=
  steps.foldl addToGroups []

/-- Result shape of `getEntityPluginPipeline`. -/
structure PipelineResult where
  entity : String
  messages : List MessageGroup
  steps : List FormattedStep
  executionOrder : List String
deriving DecidableEq, Repr

/-- Embedding of `getEntityPluginPipeline` from the step fetch onward (PluginService.ts
lines 204-325): resolves one assembly per distinct plugin-type id, fetches
images only when the step-id set is non-empty, formats the steps in fetch
order, groups them by message, and flattens `executionOrder` as the name
sequence of all formatted steps. Returns the result together with the
number of image queries issued. -/
def assembleEntityPipeline (entityName : String) (steps : List RawStep)
    (assemblyMap : List (String × Option AssemblyInfo))
    (allImages : List RawImage) : PipelineResult :=
  let formattedSteps := steps.map (formatStep assemblyMap allImages)
  { entity := entityName
    messages := buildMessageGroups formattedSteps
    steps := formattedSteps
    executionOrder := formattedSteps.map (fun s => s.name) }

/-- The remote-facing wrapper: resolve the assembly map (one lookup per
distinct plugin-type id), fetch images only for a non-empty step-id set,
then assemble. -/
def getEntityPluginPipeline (entityName : String) (steps : List RawStep)
    (fetchImages : List String → List RawImage)
    (fetchAssembly : String → Option AssemblyInfo) :
    PipelineResult × Nat :=
  let pluginTypeIds := dedupFirst
    ((steps.filterMap (fun s => s.plugintypeid_value)))
  let assemblyMap := pluginTypeIds.map (fun tid => (tid, fetchAssembly tid))
  let stepIds := steps.map (fun s => s.sdkmessageprocessingstepid)
  let fetched := if 0 < stepIds.length then (fetchImages stepIds, 1) else ([], 0)
  (assembleEntityPipeline entityName steps assemblyMap fetched.1, fetched.2)

/-- Embedding of `extractExceptionType` (PluginService.ts lines 406-409): the JS regex
`^([^:]+):` matches exactly when the text has a colon preceded by at least
one character; the capture is everything before the first colon of the
whole text (newlines included, since `[^:]` matches them). -/
def extractExceptionType (exceptionDetails : String) : Option String :=
  let cs := exceptionDetails.toList
  let pre := cs.takeWhile (fun c => c != ':')
  if 0 < pre.length && pre.length < cs.length then
    some (String.mk pre).trim
  else
    none

/-- Embedding of `extractExceptionMessage` (PluginService.ts lines 411-421): split on
newline, look at the first line; when the first line's colon index is
strictly positive, return the trimmed substring after the colon, else
null. -/
def extractExceptionMessage (exceptionDetails : String) : Option String :=
  let firstLine := exceptionDetails.toList.takeWhile (fun c => c != '\n')
  let pre := firstLine.takeWhile (fun c => c != ':')
  if 0 < pre.length && pre.length < firstLine.length then
    some (String.mk (firstLine.drop (pre.length + 1))).trim
  else
    none

/-- The derived `parsed` block attached to each trace log
(PluginService.ts lines 374-383). -/
structure ParsedBlock where
  hasException : Bool
  exceptionType : Option String
  exceptionMessage : Option String
  stackTrace : Option String
deriving DecidableEq, Repr

/-- Per-log derivation of the `parsed` block in `getPluginTraceLogs`:
each conditional is JS truthiness of `log.exceptiondetails`. -/
def parseLog (exceptiondetails : Option String) : ParsedBlock :=
  { hasException := jsTruthyStr exceptiondetails
    exceptionType :=
      if jsTruthyStr exceptiondetails then
        extractExceptionType (exceptiondetails.getD "")
      else none
    exceptionMessage :=
      if jsTruthyStr exceptiondetails then
        extractExceptionMessage (exceptiondetails.getD "")
      else none
    stackTrace := exceptiondetails }

/-- The nested `EntityCollection` of a `RetrieveDependenciesForDelete`
response; both levels may be absent. -/
structure EntityCollection where
  entities : Option (List String)
deriving DecidableEq, Repr

/-- A `RetrieveDependenciesForDelete` success response
(dependencies are opaque entities, modelled as strings). -/
structure DepResponse where
  entityCollection : Option EntityCollection
deriving DecidableEq, Repr

/-- Result of `checkDeleteEligibility`. -/
structure DeleteEligibility where
  canDelete : Bool
  dependencies : List String
deriving DecidableEq, Repr

/-- The dependency list `checkDeleteEligibility` reads off a success
response: `result.EntityCollection?.Entities || []`. -/
def depsOf (r : DepResponse) : List String :=
  (r.entityCollection.bind (fun ec => ec.entities)).getD []

/-- Embedding of `checkDeleteEligibility` (DependencyService.ts lines 32-53): the
underlying `checkDependencies` call either throws (`Except.error`) or
returns a loosely-typed response; a throw is swallowed into
`{canDelete: false, dependencies: []}`. -/
def checkDeleteEligibility (call : Except String DepResponse) :
    DeleteEligibility :=
  match call with
  | Except.ok result =>
    let dependencies := depsOf result
    { canDelete := dependencies.length == 0
      dependencies := dependencies }
  | Except.error _ =>
    { canDelete := false
      dependencies := [] }

/-! ### Helper definitions over the assembled pipeline -/

/-- Total number of steps placed in the three stage buckets of one
message group. -/
def totalOf (g : MessageGroup) : Nat :=
  g.stages.preValidation.length + g.stages.preOperation.length +
    g.stages.postOperation.length

/-- Total number of steps placed in any stage bucket of any message
group. -/
def totalBucketCount (groups : List MessageGroup) : Nat :=
  (groups.map totalOf).sum

/-- Whether a stage value is one of the three bucketed stages 10/20/40. -/
def stageOKb (t : Int) : Bool :=
  t == 10 || t == 20 || t == 40

/-- Contribution of one formatted step to the stage buckets: 1 when its
stage is bucketed, else 0. -/
def stageInc (f : FormattedStep) : Nat :=
  if stageOKb f.stage then 1 else 0

/-- All steps sitting in a stage bucket of a message group, concatenated. -/
def bucketSteps (g : MessageGroup) : List FormattedStep :=
  g.stages.preValidation ++ g.stages.preOperation ++ g.stages.postOperation

/-- The keys of the (insertion-ordered) message-group map. -/
def keyList (groups : List MessageGroup) : List (Option String) :=
  groups.map (fun g => g.messageName)

/-- Ordering relation requested from the remote source:
stage ascending, then rank ascending. -/
def stepOrderLe (a b : RawStep) : Prop :=
  a.stage < b.stage ∨ (a.stage = b.stage ∧ a.rank ≤ b.rank)

/-- The same stage-then-rank ordering on formatted steps. -/
def formattedOrderLe (a b : FormattedStep) : Prop :=
  a.stage < b.stage ∨ (a.stage = b.stage ∧ a.rank ≤ b.rank)

/-- Parsing of the comma-joined `filteringattributes` field into the
filtering-attribute list (the formatter on PluginService.ts lines
266-268): a falsy field parses to the empty list. -/
def parseFilteringAttributes (o : Option String) : List String :=
  match o with
  | none => []
  | some s => if s.isEmpty then [] else jsSplitComma s

/-! ### General lemmas -/

lemma splitCommaAux_ne_nil (cs : List Char) : splitCommaAux cs ≠ [] := by
  induction cs with
  | nil => simp [splitCommaAux]
  | cons c rest ih =>
    simp only [splitCommaAux]
    split
    · simp
    · cases h : splitCommaAux rest with
      | nil => simp
      | cons seg segs => simp

lemma jsSplitComma_ne_nil (s : String) : jsSplitComma s ≠ [] := by
  unfold jsSplitComma
  intro h
  exact splitCommaAux_ne_nil s.toList (List.map_eq_nil_iff.mp h)

/-- A falsy `filteringattributes` field is exactly an empty parsed list. -/
lemma parseFilteringAttributes_eq_nil (o : Option String) :
    parseFilteringAttributes o = [] ↔ jsTruthyStr o = false := by
  cases o with
  | none => simp [parseFilteringAttributes, jsTruthyStr]
  | some s =>
    simp only [parseFilteringAttributes, jsTruthyStr]
    cases h : s.isEmpty with
    | true => simp
    | false => simp [jsSplitComma_ne_nil s]

lemma takeWhile_append_of_neg {p : Char → Bool} (pre : List Char) (x : Char)
    (q : List Char) (hpre : ∀ c ∈ pre, p c = true) (hx : p x = false) :
    (pre ++ x :: q).takeWhile p = pre := by
  induction pre with
  | nil => simp [List.takeWhile_cons, hx]
  | cons c rest ih =>
    have hc : p c = true := hpre c (by simp)
    simp only [List.cons_append, List.takeWhile_cons, hc]
    simp [ih (fun d hd => hpre d (by simp [hd]))]

lemma takeWhile_append_of_pos {p : Char → Bool} (pre : List Char) (x : Char)
    (q : List Char) (hpre : ∀ c ∈ pre, p c = true) (hx : p x = true) :
    (pre ++ x :: q).takeWhile p = pre ++ x :: q.takeWhile p := by
  induction pre with
  | nil => simp [List.takeWhile_cons, hx]
  | cons c rest ih =>
    have hc : p c = true := hpre c (by simp)
    simp only [List.cons_append, List.takeWhile_cons, hc]
    simp [ih (fun d hd => hpre d (by simp [hd]))]

lemma takeWhile_eq_self_of_all {p : Char → Bool} (cs : List Char)
    (h : ∀ c ∈ cs, p c = true) : cs.takeWhile p = cs :=
  List.takeWhile_eq_self_iff.mpr h

/-! ### Lemmas about the grouping loop -/

lemma pushStage_messageName (g : MessageGroup) (s : FormattedStep) :
    (pushStage g s).messageName = g.messageName := by
  unfold pushStage
  split
  · rfl
  · split
    · rfl
    · split
      · rfl
      · rfl

lemma pushStage_totalOf (g : MessageGroup) (s : FormattedStep) :
    totalOf (pushStage g s) = totalOf g + stageInc s := by
  unfold pushStage stageInc stageOKb totalOf
  by_cases h10 : s.stage = 10
  · simp [h10]
    omega
  · by_cases h20 : s.stage = 20
    · simp [h10, h20]
      omega
    · by_cases h40 : s.stage = 40
      · simp [h10, h20, h40]
        omega
      · simp [h10, h20, h40]

lemma mem_bucketSteps_pushStage (g : MessageGroup) (s f : FormattedStep) :
    f ∈ bucketSteps (pushStage g s) ↔
      f ∈ bucketSteps g ∨ (stageOKb s.stage = true ∧ f = s) := by
  unfold pushStage bucketSteps stageOKb
  by_cases h10 : s.stage = 10
  · simp [h10]
    tauto
  · by_cases h20 : s.stage = 20
    · simp [h10, h20]
      tauto
    · by_cases h40 : s.stage = 40
      · simp [h10, h20, h40]
        tauto
      · simp [h10, h20, h40]

lemma pushStage_bucket_mono (g : MessageGroup) (s f : FormattedStep)
    (h : f ∈ bucketSteps g) : f ∈ bucketSteps (pushStage g s) :=
  (mem_bucketSteps_pushStage g s f).mpr (Or.inl h)

lemma pushStage_bucket_self (g : MessageGroup) (s : FormattedStep)
    (h : stageOKb s.stage = true) : s ∈ bucketSteps (pushStage g s) :=
  (mem_bucketSteps_pushStage g s s).mpr (Or.inr ⟨h, rfl⟩)

lemma pushStage_bucket_stages (g : MessageGroup) (s f : FormattedStep)
    (hg : ∀ f' ∈ bucketSteps g, stageOKb f'.stage = true)
    (h : f ∈ bucketSteps (pushStage g s)) : stageOKb f.stage = true := by
  rcases (mem_bucketSteps_pushStage g s f).mp h with hf | ⟨hs, rfl⟩
  · exact hg f hf
  · exact hs

lemma addToGroups_keyList_nodup (groups : List MessageGroup)
    (s : FormattedStep) (h : (keyList groups).Nodup) :
    (keyList (addToGroups groups s)).Nodup := by
  unfold addToGroups
  split
  · have hmap : keyList (groups.map (fun g =>
        if g.messageName == s.message then pushStage g s else g)) =
        keyList groups := by
      unfold keyList
      rw [List.map_map]
      apply List.map_congr_left
      intro g _
      simp only [Function.comp_apply]
      split
      · exact pushStage_messageName _ _
      · rfl
    rw [hmap]
    exact h
  · rename_i hany
    have hnotmem : s.message ∉ keyList groups := by
      intro hmem
      unfold keyList at hmem
      rcases List.mem_map.mp hmem with ⟨g, hg, hkey⟩
      have : groups.any (fun g => g.messageName == s.message) = true :=
        List.any_eq_true.mpr ⟨g, hg, by simp [hkey]⟩
      exact hany this
    unfold keyList at *
    rw [List.map_append]
    simp only [List.map_cons, List.map_nil, pushStage_messageName]
    exact List.Nodup.append h (List.nodup_singleton _)
      (by
        intro a ha hb
        simp only [List.mem_singleton] at hb
        subst hb
        exact hnotmem ha)

lemma map_update_totalBucketCount (s : FormattedStep) :
    ∀ (groups : List MessageGroup), (keyList groups).Nodup →
    groups.any (fun g => g.messageName == s.message) = true →
    totalBucketCount (groups.map (fun g =>
      if g.messageName == s.message then pushStage g s else g)) =
      totalBucketCount groups + stageInc s := by
  intro groups
  induction groups with
  | nil => simp
  | cons g rest ih =>
    intro hnodup hany
    unfold keyList at hnodup
    simp only [List.map_cons, List.nodup_cons] at hnodup
    by_cases hg : (g.messageName == s.message) = true
    · have hrest : ∀ g' ∈ rest, (g'.messageName == s.message) = false := by
        intro g' hg'
        have hgm : g.messageName = s.message := by simpa using hg
        have hne : g'.messageName ≠ s.message := by
          intro heq
          have hmem : g'.messageName ∈ rest.map (fun x => x.messageName) :=
            List.mem_map_of_mem (fun x => x.messageName) hg'
          rw [heq, ← hgm] at hmem
          exact hnodup.1 hmem
        simp [hne]
      have hmaprest : rest.map (fun g' =>
          if g'.messageName == s.message then pushStage g' s else g') = rest := by
        conv_rhs => rw [← List.map_id rest]
        apply List.map_congr_left
        intro g' hg'
        simp [hrest g' hg']
      rw [List.map_cons, if_pos hg, hmaprest]
      simp only [totalBucketCount, List.map_cons, List.sum_cons,
        pushStage_totalOf]
      omega
    · simp only [Bool.not_eq_true] at hg
      have hanyrest : rest.any (fun g' => g'.messageName == s.message) = true := by
        simp only [List.any_cons, hg, Bool.false_or] at hany
        exact hany
      rw [List.map_cons, if_neg (by simp [hg])]
      simp only [totalBucketCount, List.map_cons, List.sum_cons]
      have hih := ih hnodup.2 hanyrest
      simp only [totalBucketCount] at hih
      omega

lemma addToGroups_totalBucketCount (groups : List MessageGroup)
    (s : FormattedStep) (h : (keyList groups).Nodup) :
    totalBucketCount (addToGroups groups s) =
      totalBucketCount groups + stageInc s := by
  unfold addToGroups
  split
  · rename_i hany
    exact map_update_totalBucketCount s groups h hany
  · unfold totalBucketCount
    rw [List.map_append]
    simp only [List.map_cons, List.map_nil, List.sum_append, List.sum_cons,
      List.sum_nil, pushStage_totalOf]
    simp [totalOf]

lemma foldl_addToGroups_totalBucketCount :
    ∀ (l : List FormattedStep) (acc : List MessageGroup),
    (keyList acc).Nodup →
    totalBucketCount (l.foldl addToGroups acc) =
      totalBucketCount acc + (l.map stageInc).sum := by
  intro l
  induction l with
  | nil => simp
  | cons f rest ih =>
    intro acc hacc
    simp only [List.foldl_cons, List.map_cons, List.sum_cons]
    rw [ih (addToGroups acc f) (addToGroups_keyList_nodup acc f hacc)]
    rw [addToGroups_totalBucketCount acc f hacc]
    omega

lemma buildMessageGroups_totalBucketCount (l : List FormattedStep) :
    totalBucketCount (buildMessageGroups l) = (l.map stageInc).sum := by
  unfold buildMessageGroups
  rw [foldl_addToGroups_totalBucketCount l [] (by simp [keyList])]
  simp [totalBucketCount]

lemma sum_stageInc_of_all (l : List FormattedStep)
    (h : ∀ f ∈ l, stageOKb f.stage = true) : (l.map stageInc).sum = l.length := by
  induction l with
  | nil => simp
  | cons f rest ih =>
    simp only [List.map_cons, List.sum_cons, List.length_cons]
    rw [ih (fun f' hf' => h f' (by simp [hf']))]
    unfold stageInc
    rw [if_pos (h f (by simp))]
    omega

/-- Existence of a step inside a stage bucket of a group with a given key. -/
def inGroupWith (groups : List MessageGroup) (m : Option String)
    (f : FormattedStep) : Prop :=
  ∃ g, g ∈ groups ∧ g.messageName = m ∧ f ∈ bucketSteps g

lemma addToGroups_inGroupWith_estab (acc : List MessageGroup)
    (f : FormattedStep) (h : stageOKb f.stage = true) :
    inGroupWith (addToGroups acc f) f.message f := by
  unfold addToGroups
  split
  · rename_i hany
    rcases List.any_eq_true.mp hany with ⟨g, hg, hkey⟩
    refine ⟨pushStage g f, ?_, ?_, pushStage_bucket_self g f h⟩
    · have : (if g.messageName == f.message then pushStage g f else g) =
          pushStage g f := if_pos hkey
      exact this ▸ List.mem_map_of_mem _ hg
    · rw [pushStage_messageName]
      simpa using hkey
  · refine ⟨pushStage ⟨f.message, ⟨[], [], []⟩⟩ f, ?_, ?_,
      pushStage_bucket_self _ f h⟩
    · simp
    · rw [pushStage_messageName]

lemma addToGroups_inGroupWith_pres (acc : List MessageGroup)
    (m : Option String) (f t : FormattedStep)
    (h : inGroupWith acc m f) : inGroupWith (addToGroups acc t) m f := by
  rcases h with ⟨g, hg, hkey, hmem⟩
  unfold addToGroups
  split
  · by_cases hcond : (g.messageName == t.message) = true
    · refine ⟨pushStage g t, ?_, ?_, pushStage_bucket_mono g t f hmem⟩
      · have : (if g.messageName == t.message then pushStage g t else g) =
            pushStage g t := if_pos hcond
        exact this ▸ List.mem_map_of_mem _ hg
      · rw [pushStage_messageName]
        exact hkey
    · refine ⟨g, ?_, hkey, hmem⟩
      have : (if g.messageName == t.message then pushStage g t else g) = g :=
        if_neg hcond
      exact this ▸ List.mem_map_of_mem _ hg
  · exact ⟨g, by simp [hg], hkey, hmem⟩

lemma foldl_addToGroups_inGroupWith_pres :
    ∀ (l : List FormattedStep) (acc : List MessageGroup) (m : Option String)
    (f : FormattedStep), inGroupWith acc m f →
    inGroupWith (l.foldl addToGroups acc) m f := by
  intro l
  induction l with
  | nil => intro acc m f h; exact h
  | cons t rest ih =>
    intro acc m f h
    simp only [List.foldl_cons]
    exact ih (addToGroups acc t) m f (addToGroups_inGroupWith_pres acc m f t h)

lemma foldl_addToGroups_inGroupWith_mem :
    ∀ (l : List FormattedStep) (acc : List MessageGroup) (f : FormattedStep),
    f ∈ l → stageOKb f.stage = true →
    inGroupWith (l.foldl addToGroups acc) f.message f := by
  intro l
  induction l with
  | nil => intro acc f h; cases h
  | cons t rest ih =>
    intro acc f hmem hstage
    simp only [List.foldl_cons]
    rcases List.mem_cons.mp hmem with rfl | hmem'
    · exact foldl_addToGroups_inGroupWith_pres rest (addToGroups acc f)
        f.message f (addToGroups_inGroupWith_estab acc f hstage)
    · exact ih (addToGroups acc t) f hmem' hstage

lemma addToGroups_bucket_stages (acc : List MessageGroup) (t : FormattedStep)
    (h : ∀ g ∈ acc, ∀ f ∈ bucketSteps g, stageOKb f.stage = true) :
    ∀ g ∈ addToGroups acc t, ∀ f ∈ bucketSteps g, stageOKb f.stage = true := by
  unfold addToGroups
  split
  · intro g hg f hf
    rcases List.mem_map.mp hg with ⟨g0, hg0, rfl⟩
    by_cases hcond : (g0.messageName == t.message) = true
    · rw [if_pos hcond] at hf
      exact pushStage_bucket_stages g0 t f (h g0 hg0) hf
    · rw [if_neg hcond] at hf
      exact h g0 hg0 f hf
  · intro g hg f hf
    rcases List.mem_append.mp hg with hg' | hg'
    · exact h g hg' f hf
    · simp only [List.mem_singleton] at hg'
      subst hg'
      have hempty : ∀ f' ∈ bucketSteps
          (⟨t.message, ⟨[], [], []⟩⟩ : MessageGroup), stageOKb f'.stage = true := by
        intro f' hf'
        simp [bucketSteps] at hf'
      exact pushStage_bucket_stages _ t f hempty hf

lemma buildMessageGroups_bucket_stages (l : List FormattedStep) :
    ∀ g ∈ buildMessageGroups l, ∀ f ∈ bucketSteps g,
    stageOKb f.stage = true := by
  unfold buildMessageGroups
  have main : ∀ (l' : List FormattedStep) (acc : List MessageGroup),
      (∀ g ∈ acc, ∀ f ∈ bucketSteps g, stageOKb f.stage = true) →
      ∀ g ∈ l'.foldl addToGroups acc, ∀ f ∈ bucketSteps g,
      stageOKb f.stage = true := by
    intro l'
    induction l' with
    | nil => intro acc h; exact h
    | cons t rest ih =>
      intro acc h
      simp only [List.foldl_cons]
      exact ih (addToGroups acc t) (addToGroups_bucket_stages acc t h)
  exact main l [] (by intro g hg; cases hg)

/-! ### Claim theorems -/

/-- C2: `checkDeleteEligibility` returns `canDelete = true` exactly when
the dependency list obtained from the `checkDependencies` response is
empty, and a throwing `checkDependencies` call is never propagated:
the result is then `{canDelete := false, dependencies := []}`. -/
theorem checkDeleteEligibility_canDelete_iff_no_deps :
    (∀ r : DepResponse,
      (checkDeleteEligibility (Except.ok r)).canDelete = (depsOf r).isEmpty ∧
      (checkDeleteEligibility (Except.ok r)).dependencies = depsOf r) ∧
    (∀ e : String, checkDeleteEligibility (Except.error e) =
      { canDelete := false, dependencies := [] }) := by
  constructor
  · intro r
    constructor
    · simp only [checkDeleteEligibility]
      cases h : depsOf r with
      | nil => rfl
      | cons a l => rfl
    · rfl
  · intro e
    rfl

/-- C10: a success response from `checkDependencies` that lacks the
`EntityCollection` field, or whose `EntityCollection` lacks `Entities`,
is treated as an empty dependency list: `checkDeleteEligibility` returns
`{canDelete := true, dependencies := []}`, not the conservative default. -/
theorem checkDeleteEligibility_malformed_success_can_delete :
    checkDeleteEligibility (Except.ok { entityCollection := none }) =
      { canDelete := true, dependencies := [] } ∧
    checkDeleteEligibility
      (Except.ok { entityCollection := some { entities := none } }) =
      { canDelete := true, dependencies := [] } := by
  exact ⟨rfl, rfl⟩

/-- C8: when the step set is empty, no image query is issued (the call
counter is 0 and the result does not depend on the image oracle), and the
resulting steps collection is empty, in both `getPluginAssemblyComplete`
and `getEntityPluginPipeline`; `bindImages` on an empty step list is
empty. -/
theorem empty_step_set_no_image_fetch :
    ∀ (entity : String) (fi fi' : List String → List RawImage)
      (fa : String → Option AssemblyInfo) (imgs : List RawImage),
    (getPluginAssemblyComplete [] fi).2 = 0 ∧
    (getPluginAssemblyComplete [] fi).1.steps = [] ∧
    getPluginAssemblyComplete [] fi = getPluginAssemblyComplete [] fi' ∧
    bindImages [] imgs = [] ∧
    (getEntityPluginPipeline entity [] fi fa).2 = 0 ∧
    (getEntityPluginPipeline entity [] fi fa).1.steps = [] ∧
    (getEntityPluginPipeline entity [] fi fa).1.executionOrder = [] ∧
    getEntityPluginPipeline entity [] fi fa =
      getEntityPluginPipeline entity [] fi' fa := by
  intro entity fi fi' fa imgs
  exact ⟨rfl, rfl, rfl, rfl, rfl, rfl, rfl, rfl⟩

/-- Projection equation: the filtering-attributes rule list of the
validation block. -/
lemma computeValidation_noFilt (l : List StepWithImages) :
    (computeValidation l).stepsWithoutFilteringAttributes =
      (l.filter (fun s =>
        isUpdateOrDelete s.step.msgName &&
          !jsTruthyStr s.step.filteringattributes)).map
        (fun s => s.step.name) := rfl

/-- Projection equation: the missing-images rule list of the validation
block. -/
lemma computeValidation_noImg (l : List StepWithImages) :
    (computeValidation l).stepsWithoutImages =
      (l.filter (fun s =>
        s.images.length == 0 && isUpdateOrDelete s.step.msgName)).map
        (fun s => s.step.name) := rfl

/-- Projection equation: the issue summary lines of the validation
block. -/
lemma computeValidation_issues (l : List StepWithImages) :
    (computeValidation l).potentialIssues =
      (if 0 < (computeValidation l).stepsWithoutFilteringAttributes.length
       then [filteringIssueLine
         (computeValidation l).stepsWithoutFilteringAttributes.length]
       else []) ++
      (if 0 < (computeValidation l).stepsWithoutImages.length
       then [imagesIssueLine (computeValidation l).stepsWithoutImages.length]
       else []) := rfl

/-- C5: `potentialIssues` holds exactly one summary line per non-empty
rule-violation list, each stating the count of that list; both lists
non-empty gives exactly 2 entries, both empty gives none. -/
theorem potentialIssues_one_line_per_nonempty_list :
    ∀ (l : List StepWithImages),
    (computeValidation l).potentialIssues.length =
      (if (computeValidation l).stepsWithoutFilteringAttributes = []
       then 0 else 1) +
      (if (computeValidation l).stepsWithoutImages = [] then 0 else 1) ∧
    ((computeValidation l).stepsWithoutFilteringAttributes ≠ [] →
      filteringIssueLine
        (computeValidation l).stepsWithoutFilteringAttributes.length ∈
        (computeValidation l).potentialIssues) ∧
    ((computeValidation l).stepsWithoutImages ≠ [] →
      imagesIssueLine (computeValidation l).stepsWithoutImages.length ∈
        (computeValidation l).potentialIssues) ∧
    ((computeValidation l).stepsWithoutFilteringAttributes = [] →
      (computeValidation l).stepsWithoutImages = [] →
      (computeValidation l).potentialIssues = []) := by
  intro l
  by_cases hA : (computeValidation l).stepsWithoutFilteringAttributes = [] <;>
    by_cases hB : (computeValidation l).stepsWithoutImages = [] <;>
      simp [computeValidation_issues, hA, hB, List.length_pos]

/-- Test fixture: a raw step with the fields the claims care about. -/
def mkRawStep (id nm : String) (msg : Option String) (stage rank : Int)
    (filt : Option String) : RawStep :=
  { sdkmessageprocessingstepid := id
    name := nm
    stage := stage
    mode := 0
    rank := rank
    statuscode := 1
    filteringattributes := filt
    supporteddeployment := 0
    sdkmessageid := msg.map (fun m => { name := some m })
    plugintypeid_value := none
    plugintype_typename := none
    impersonatinguser_fullname := none }

/-- C3 counterexample: with two steps sharing the name "A" — one on
Create, one on Update with a falsy filtering-attribute field — the name
of the Create step does appear in `stepsWithoutFilteringAttributes`,
refuting the unconditional never-appears half of the claim. -/
theorem create_step_name_in_noFilt_cex :
    isUpdateOrDelete (mkRawStep "id1" "A" (some "Create") 20 1 none).msgName
      = false ∧
    (mkRawStep "id1" "A" (some "Create") 20 1 none).name ∈
      (computeValidation (bindImages
        [mkRawStep "id1" "A" (some "Create") 20 1 none,
         mkRawStep "id2" "A" (some "Update") 20 2 none]
        [])).stepsWithoutFilteringAttributes := by
  decide

/-- C3 (amended): every Update/Delete step with an empty
filtering-attribute list contributes its name to
`stepsWithoutFilteringAttributes`; and provided step names are pairwise
distinct, the name of a step whose message is neither Update nor Delete
never appears there. -/
theorem stepsWithoutFilteringAttributes_characterization :
    ∀ (l : List StepWithImages),
    (∀ s, s ∈ l → isUpdateOrDelete s.step.msgName = true →
      parseFilteringAttributes s.step.filteringattributes = [] →
      s.step.name ∈ (computeValidation l).stepsWithoutFilteringAttributes) ∧
    ((l.map (fun s => s.step.name)).Nodup →
      ∀ s, s ∈ l → isUpdateOrDelete s.step.msgName = false →
      s.step.name ∉ (computeValidation l).stepsWithoutFilteringAttributes) := by
  intro l
  constructor
  · intro s hs hud hfilt
    rw [computeValidation_noFilt]
    apply List.mem_map_of_mem
    apply List.mem_filter.mpr
    refine ⟨hs, ?_⟩
    rw [Bool.and_eq_true, hud]
    refine ⟨rfl, ?_⟩
    rw [(parseFilteringAttributes_eq_nil _).mp hfilt]
    rfl
  · intro hnodup s hs hud hmem
    rw [computeValidation_noFilt] at hmem
    rcases List.mem_map.mp hmem with ⟨t, ht, hname⟩
    have ht' := List.mem_filter.mp ht
    have hts : t = s := List.inj_on_of_nodup_map hnodup ht'.1 hs hname
    subst hts
    have := ht'.2
    rw [Bool.and_eq_true] at this
    rw [hud] at this
    exact Bool.false_ne_true this.1

/-- C3 witness input: a Create step and an Update step with distinct
names, neither with filtering attributes, no images fetched. -/
def c3WitnessSteps : List StepWithImages :=
  bindImages
    [mkRawStep "id1" "C" (some "Create") 20 1 none,
     mkRawStep "id2" "U" (some "Update") 20 2 none] []

/-- C3 witness: both halves of the characterization applied to a concrete
step list. -/
theorem stepsWithoutFilteringAttributes_witness :
    "U" ∈ (computeValidation c3WitnessSteps).stepsWithoutFilteringAttributes ∧
    "C" ∉ (computeValidation c3WitnessSteps).stepsWithoutFilteringAttributes :=
  ⟨(stepsWithoutFilteringAttributes_characterization c3WitnessSteps).1
      ⟨mkRawStep "id2" "U" (some "Update") 20 2 none, []⟩
      (by decide) (by decide) (by decide),
   (stepsWithoutFilteringAttributes_characterization c3WitnessSteps).2
      (by decide)
      ⟨mkRawStep "id1" "C" (some "Create") 20 1 none, []⟩
      (by decide) (by decide)⟩

/-- C4 counterexample: with a Create step and an Update step sharing the
name "B", both with zero bound images, the Create step's name does appear
in `stepsWithoutImages`, refuting the unconditional never-appears half of
the claim. -/
theorem create_step_name_in_noImg_cex :
    (mkRawStep "id3" "B" (some "Create") 20 1 none).msgName = some "Create" ∧
    (mkRawStep "id3" "B" (some "Create") 20 1 none).name ∈
      (computeValidation (bindImages
        [mkRawStep "id3" "B" (some "Create") 20 1 none,
         mkRawStep "id4" "B" (some "Update") 20 2 none]
        [])).stepsWithoutImages := by
  decide

/-- C4 (amended): every Update/Delete step with zero bound images
contributes its name to `stepsWithoutImages`; and provided step names are
pairwise distinct, the name of a step whose message is Create never
appears there, regardless of its images. -/
theorem stepsWithoutImages_characterization :
    ∀ (l : List StepWithImages),
    (∀ s, s ∈ l → isUpdateOrDelete s.step.msgName = true → s.images = [] →
      s.step.name ∈ (computeValidation l).stepsWithoutImages) ∧
    ((l.map (fun s => s.step.name)).Nodup →
      ∀ s, s ∈ l → s.step.msgName = some "Create" →
      s.step.name ∉ (computeValidation l).stepsWithoutImages) := by
  intro l
  constructor
  · intro s hs hud himg
    rw [computeValidation_noImg]
    apply List.mem_map_of_mem
    apply List.mem_filter.mpr
    refine ⟨hs, ?_⟩
    rw [Bool.and_eq_true, hud, himg]
    exact ⟨rfl, rfl⟩
  · intro hnodup s hs hmsg hmem
    rw [computeValidation_noImg] at hmem
    rcases List.mem_map.mp hmem with ⟨t, ht, hname⟩
    have ht' := List.mem_filter.mp ht
    have hts : t = s := List.inj_on_of_nodup_map hnodup ht'.1 hs hname
    rw [hts] at ht'
    have := ht'.2
    rw [Bool.and_eq_true] at this
    have hud : isUpdateOrDelete s.step.msgName = false := by
      rw [hmsg]
      rfl
    rw [hud] at this
    exact Bool.false_ne_true this.2

/-- C4 witness input: a Create step and an Update step with distinct
names, both with zero bound images. -/
def c4WitnessSteps : List StepWithImages :=
  bindImages
    [mkRawStep "id3" "C4c" (some "Create") 20 1 none,
     mkRawStep "id4" "C4u" (some "Update") 20 2 none] []

/-- C4 witness: both halves of the characterization applied to a concrete
step list. -/
theorem stepsWithoutImages_witness :
    "C4u" ∈ (computeValidation c4WitnessSteps).stepsWithoutImages ∧
    "C4c" ∉ (computeValidation c4WitnessSteps).stepsWithoutImages :=
  ⟨(stepsWithoutImages_characterization c4WitnessSteps).1
      ⟨mkRawStep "id4" "C4u" (some "Update") 20 2 none, []⟩
      (by decide) (by decide) (by decide),
   (stepsWithoutImages_characterization c4WitnessSteps).2
      (by decide)
      ⟨mkRawStep "id3" "C4c" (some "Create") 20 1 none, []⟩
      (by decide) (by decide)⟩

/-- C5 witness input: one Update step without filtering attributes and
without images. -/
def c5WitnessSteps : List StepWithImages :=
  bindImages [mkRawStep "id5" "C5u" (some "Update") 20 1 none] []

/-- C5 witness: the issue lines of a concrete validation, via the general
theorem. -/
theorem potentialIssues_witness :
    filteringIssueLine
      (computeValidation c5WitnessSteps).stepsWithoutFilteringAttributes.length ∈
      (computeValidation c5WitnessSteps).potentialIssues ∧
    imagesIssueLine
      (computeValidation c5WitnessSteps).stepsWithoutImages.length ∈
      (computeValidation c5WitnessSteps).potentialIssues ∧
    (computeValidation c5WitnessSteps).potentialIssues.length = 2 :=
  ⟨(potentialIssues_one_line_per_nonempty_list c5WitnessSteps).2.1 (by decide),
   (potentialIssues_one_line_per_nonempty_list c5WitnessSteps).2.2.1 (by decide),
   by
    rw [(potentialIssues_one_line_per_nonempty_list c5WitnessSteps).1]
    decide⟩

/-- C6 counterexample: for exception text "abc\ndef: x" the first line
("abc") contains no colon, so the claim requires a null `exceptionType`;
the code matches the regex across the newline and produces "abc\ndef". -/
theorem exceptionType_spans_newline_cex :
    (':' ∉ ("abc\ndef: x".toList.takeWhile (fun c => c != '\n'))) ∧
    (parseLog (some "abc\ndef: x")).exceptionType ≠ none := by
  exact ⟨by decide, by decide⟩

/-- C6 (amended): for every trace log with non-empty exception text,
`parsed.exceptionType` is the trimmed substring before the first colon of
the whole exception text (newlines included), null when there is no colon
or no character precedes it; `parsed.exceptionMessage` is the trimmed
substring after the first colon of the first line, null when the first
line has no colon or the colon is its first character; no exception text
shape raises (the parsers are total, and an empty/absent text yields the
all-null parsed block). -/
lemma toList_mk (cs : List Char) : (String.mk cs).toList = cs := rfl

theorem exception_parsing_characterization :
    (∀ (p q : List Char), ':' ∉ p → p ≠ [] →
      extractExceptionType (String.mk (p ++ ':' :: q)) =
        some (String.mk p).trim) ∧
    (∀ (cs : List Char), ':' ∉ cs →
      extractExceptionType (String.mk cs) = none) ∧
    (∀ (q : List Char), extractExceptionType (String.mk (':' :: q)) = none) ∧
    (∀ (p q : List Char), ':' ∉ p → '\n' ∉ p → p ≠ [] →
      extractExceptionMessage (String.mk (p ++ ':' :: q)) =
        some (String.mk (q.takeWhile (fun c => c != '\n'))).trim) ∧
    (∀ (cs : List Char), ':' ∉ cs.takeWhile (fun c => c != '\n') →
      extractExceptionMessage (String.mk cs) = none) ∧
    (∀ (q : List Char),
      extractExceptionMessage (String.mk (':' :: q)) = none) ∧
    (∀ (s : String), parseLog (some s) =
      ⟨!s.isEmpty, (if s.isEmpty then none else extractExceptionType s),
        (if s.isEmpty then none else extractExceptionMessage s), some s⟩) ∧
    (parseLog none = ⟨false, none, none, none⟩) := by
  have hallp : ∀ (p : List Char), ':' ∉ p →
      ∀ c ∈ p, (c != ':') = true := by
    intro p hp c hc
    simp only [bne_iff_ne, ne_eq]
    intro hcc
    exact hp (hcc ▸ hc)
  refine ⟨?_, ?_, ?_, ?_, ?_, ?_, ?_, rfl⟩
  · intro p q hp hne
    unfold extractExceptionType
    simp only [toList_mk,
      takeWhile_append_of_neg p ':' q (hallp p hp) (by decide)]
    have hlen : 0 < p.length := List.length_pos.mpr hne
    have hlt : p.length < (p ++ ':' :: q).length := by
      simp
    simp [hlen, hlt]
  · intro cs hcs
    unfold extractExceptionType
    simp only [toList_mk, takeWhile_eq_self_of_all cs (hallp cs hcs)]
    simp
  · intro q
    unfold extractExceptionType
    simp only [toList_mk,
      @List.takeWhile_cons_of_neg _ (fun c => c != ':') ':' q (by decide)]
    simp
  · intro p q hp hnl hne
    unfold extractExceptionMessage
    have hallnl : ∀ c ∈ p, (c != '\n') = true := by
      intro c hc
      simp only [bne_iff_ne, ne_eq]
      intro hcc
      exact hnl (hcc ▸ hc)
    simp only [toList_mk,
      takeWhile_append_of_pos p ':' q hallnl (by decide),
      takeWhile_append_of_neg p ':' (q.takeWhile (fun c => c != '\n'))
        (hallp p hp) (by decide)]
    have hlen : 0 < p.length := List.length_pos.mpr hne
    have hlt : p.length <
        (p ++ ':' :: q.takeWhile (fun c => c != '\n')).length := by
      simp
    have hdrop : (p ++ ':' :: q.takeWhile (fun c => c != '\n')).drop
        (p.length + 1) = q.takeWhile (fun c => c != '\n') := by
      have hassoc : p ++ ':' :: q.takeWhile (fun c => c != '\n') =
          (p ++ [':']) ++ q.takeWhile (fun c => c != '\n') := by
        simp
      rw [hassoc]
      have hplen : p.length + 1 = (p ++ [':']).length := by
        simp
      rw [hplen, List.drop_left]
    simp [hlen, hlt, hdrop]
  · intro cs hcs
    unfold extractExceptionMessage
    simp only [toList_mk, takeWhile_eq_self_of_all
      (cs.takeWhile (fun c => c != '\n')) (hallp _ hcs)]
    simp
  · intro q
    unfold extractExceptionMessage
    simp only [toList_mk,
      @List.takeWhile_cons_of_pos _ (fun c => c != '\n') ':' q (by decide),
      @List.takeWhile_cons_of_neg _ (fun c => c != ':') ':'
        (q.takeWhile (fun c => c != '\n')) (by decide)]
    simp
  · intro s
    unfold parseLog jsTruthyStr
    cases h : s.isEmpty with
    | true => simp [h]
    | false => simp [h]

/-- C6 witness: the amended characterization applied to the concrete
exception text "System.NullReferenceException: Object reference not set". -/
theorem exception_parsing_witness :
    (':' ∉ "System.NullReferenceException".toList) ∧
    ("System.NullReferenceException".toList ≠ []) ∧
    extractExceptionType (String.mk ("System.NullReferenceException".toList ++
      ':' :: " Object reference not set".toList)) =
      some (String.mk "System.NullReferenceException".toList).trim ∧
    extractExceptionMessage (String.mk ("System.NullReferenceException".toList ++
      ':' :: " Object reference not set".toList)) =
      some (String.mk
        (" Object reference not set".toList.takeWhile (fun c => c != '\n'))).trim :=
  ⟨by decide, by decide,
   exception_parsing_characterization.1
     "System.NullReferenceException".toList
     " Object reference not set".toList (by decide) (by decide),
   exception_parsing_characterization.2.2.2.1
     "System.NullReferenceException".toList
     " Object reference not set".toList (by decide) (by decide) (by decide)⟩

/-- The first component of the wrapper is the pure assembly at the
internally computed assembly map and image list. -/
lemma getEntityPluginPipeline_fst (entity : String) (steps : List RawStep)
    (fi : List String → List RawImage) (fa : String → Option AssemblyInfo) :
    ∃ am ai, (getEntityPluginPipeline entity steps fi fa).1 =
      assembleEntityPipeline entity steps am ai := by
  unfold getEntityPluginPipeline
  exact ⟨_, _, rfl⟩

instance stepOrderLeDec : DecidableRel stepOrderLe := fun a b =>
  decidable_of_iff
    (a.stage < b.stage ∨ (a.stage = b.stage ∧ a.rank ≤ b.rank)) Iff.rfl

instance formattedOrderLeDec : DecidableRel formattedOrderLe := fun a b =>
  decidable_of_iff
    (a.stage < b.stage ∨ (a.stage = b.stage ∧ a.rank ≤ b.rank)) Iff.rfl

/-- C1 counterexample: a single already-sorted step with stage 30 is
placed in no stage bucket, yet contributes an entry to `executionOrder`,
so the flattened list has strictly more entries than the stage buckets
hold. -/
theorem executionOrder_bucket_count_cex :
    List.Pairwise stepOrderLe [mkRawStep "id30" "S30" (some "Update") 30 1 none] ∧
    (getEntityPluginPipeline "account"
      [mkRawStep "id30" "S30" (some "Update") 30 1 none]
      (fun _ => []) (fun _ => none)).1.executionOrder.length ≠
    totalBucketCount (getEntityPluginPipeline "account"
      [mkRawStep "id30" "S30" (some "Update") 30 1 none]
      (fun _ => []) (fun _ => none)).1.messages := by
  constructor
  · exact List.pairwise_singleton _ _
  · decide

/-- C1 (amended): provided the remote source returns the steps sorted by
stage then rank and every stage is one of the bucketed values 10/20/40,
`executionOrder` has exactly one entry per step placed in a stage bucket
(its length equals the total bucket count), it is the name sequence of
the formatted steps, and those steps are ordered with all stage-10
entries before stage-20 entries before stage-40 entries and
non-decreasing rank within a stage. -/
theorem executionOrder_stage_rank_order :
    ∀ (entity : String) (steps : List RawStep)
      (fi : List String → List RawImage) (fa : String → Option AssemblyInfo),
    List.Pairwise stepOrderLe steps →
    (∀ s ∈ steps, stageOKb s.stage = true) →
    (getEntityPluginPipeline entity steps fi fa).1.executionOrder.length =
      totalBucketCount
        (getEntityPluginPipeline entity steps fi fa).1.messages ∧
    (getEntityPluginPipeline entity steps fi fa).1.executionOrder =
      (getEntityPluginPipeline entity steps fi fa).1.steps.map
        (fun f => f.name) ∧
    List.Pairwise formattedOrderLe
      (getEntityPluginPipeline entity steps fi fa).1.steps := by
  intro entity steps fi fa hsorted hstages
  obtain ⟨am, ai, heq⟩ := getEntityPluginPipeline_fst entity steps fi fa
  rw [heq]
  refine ⟨?_, rfl, ?_⟩
  · show ((steps.map (formatStep am ai)).map (fun s => s.name)).length =
      totalBucketCount (buildMessageGroups (steps.map (formatStep am ai)))
    rw [buildMessageGroups_totalBucketCount, sum_stageInc_of_all]
    · simp
    · intro f hf
      rcases List.mem_map.mp hf with ⟨s, hs, rfl⟩
      exact hstages s hs
  · show List.Pairwise formattedOrderLe (steps.map (formatStep am ai))
    rw [List.pairwise_map]
    exact hsorted.imp (fun h => h)

/-- C1 witness input: three steps sorted by stage then rank, on stages
10, 20 and 40. -/
def c1WitnessSteps : List RawStep :=
  [mkRawStep "w1" "W1" (some "Update") 10 1 none,
   mkRawStep "w2" "W2" (some "Update") 20 1 none,
   mkRawStep "w3" "W3" (some "Create") 40 2 none]

/-- C1 witness: the amended ordering theorem applied to a concrete sorted
step list. -/
theorem executionOrder_stage_rank_order_witness :
    List.Pairwise stepOrderLe c1WitnessSteps ∧
    (∀ s ∈ c1WitnessSteps, stageOKb s.stage = true) ∧
    (getEntityPluginPipeline "account" c1WitnessSteps
      (fun _ => []) (fun _ => none)).1.executionOrder.length =
      totalBucketCount (getEntityPluginPipeline "account" c1WitnessSteps
        (fun _ => []) (fun _ => none)).1.messages :=
  ⟨by decide, by decide,
   (executionOrder_stage_rank_order "account" c1WitnessSteps
     (fun _ => []) (fun _ => none) (by decide) (by decide)).1⟩

/-- C7 counterexample: a step whose message failed to resolve is not
placed outside all message groups — it lands inside the stage bucket of a
message group keyed by the absent message name. -/
theorem unresolved_message_in_group_cex :
    (mkRawStep "id7" "S7" none 10 1 none).msgName = none ∧
    ((getEntityPluginPipeline "account"
        [mkRawStep "id7" "S7" none 10 1 none]
        (fun _ => []) (fun _ => none)).1.messages.any
      (fun g => decide (g.messageName = none) &&
        (bucketSteps g).any (fun f => f.name == "S7"))) = true := by
  exact ⟨rfl, by decide⟩

/-- C7 (amended): a step whose message name failed to resolve never
crashes assembly and still appears in `executionOrder`, but rather than
being placed outside all message groups it is bucketed (for a stage value
10/20/40) inside a message group whose key is the absent message name. -/
theorem unresolved_message_step_grouped :
    ∀ (entity : String) (steps : List RawStep)
      (fi : List String → List RawImage) (fa : String → Option AssemblyInfo)
      (s : RawStep), s ∈ steps → s.msgName = none → stageOKb s.stage = true →
    s.name ∈ (getEntityPluginPipeline entity steps fi fa).1.executionOrder ∧
    ∃ g, g ∈ (getEntityPluginPipeline entity steps fi fa).1.messages ∧
      g.messageName = none ∧
      ∃ f, f ∈ bucketSteps g ∧ f.name = s.name ∧ f.message = none := by
  intro entity steps fi fa s hs hmsg hstage
  obtain ⟨am, ai, heq⟩ := getEntityPluginPipeline_fst entity steps fi fa
  rw [heq]
  constructor
  · show s.name ∈ (steps.map (formatStep am ai)).map (fun f => f.name)
    exact List.mem_map_of_mem _ (List.mem_map_of_mem _ hs)
  · have hmem : inGroupWith
        ((steps.map (formatStep am ai)).foldl addToGroups [])
        (formatStep am ai s).message (formatStep am ai s) :=
      foldl_addToGroups_inGroupWith_mem (steps.map (formatStep am ai)) []
        (formatStep am ai s) (List.mem_map_of_mem _ hs) hstage
    rcases hmem with ⟨g, hg, hkey, hbucket⟩
    refine ⟨g, hg, ?_, formatStep am ai s, hbucket, rfl, ?_⟩
    · rw [hkey]
      exact hmsg
    · exact hmsg

/-- C7 witness: the amended theorem applied to a concrete one-step list
whose message lookup failed. -/
theorem unresolved_message_step_grouped_witness :
    (mkRawStep "id7w" "S7w" none 20 1 none) ∈
      [mkRawStep "id7w" "S7w" none 20 1 none] ∧
    (mkRawStep "id7w" "S7w" none 20 1 none).msgName = none ∧
    stageOKb (mkRawStep "id7w" "S7w" none 20 1 none).stage = true ∧
    ("S7w" ∈ (getEntityPluginPipeline "account"
        [mkRawStep "id7w" "S7w" none 20 1 none]
        (fun _ => []) (fun _ => none)).1.executionOrder ∧
      ∃ g, g ∈ (getEntityPluginPipeline "account"
          [mkRawStep "id7w" "S7w" none 20 1 none]
          (fun _ => []) (fun _ => none)).1.messages ∧
        g.messageName = none ∧
        ∃ f, f ∈ bucketSteps g ∧ f.name = "S7w" ∧ f.message = none) :=
  ⟨by decide, rfl, by decide,
   unresolved_message_step_grouped "account"
     [mkRawStep "id7w" "S7w" none 20 1 none]
     (fun _ => []) (fun _ => none)
     (mkRawStep "id7w" "S7w" none 20 1 none)
     (by decide) rfl (by decide)⟩

/-- C9: every stage value other than 10 and 20 (30 and 40 alike) is
labeled `PostOperation`; and a step whose stage is none of 10/20/40
appears in `executionOrder` and in the flat steps list (with that
PostOperation label), but in no stage bucket of any message group. -/
theorem stage_labeling_and_bucket_membership :
    (∀ t : Int, t ≠ 10 → t ≠ 20 → stageNameOf t = "PostOperation") ∧
    (∀ (entity : String) (steps : List RawStep)
      (fi : List String → List RawImage) (fa : String → Option AssemblyInfo)
      (s : RawStep), s ∈ steps → stageOKb s.stage = false →
      s.name ∈ (getEntityPluginPipeline entity steps fi fa).1.executionOrder ∧
      ∃ f, f ∈ (getEntityPluginPipeline entity steps fi fa).1.steps ∧
        f.name = s.name ∧ f.stage = s.stage ∧
        f.stageName = stageNameOf s.stage ∧
        ∀ g, g ∈ (getEntityPluginPipeline entity steps fi fa).1.messages →
          f ∉ bucketSteps g) := by
  constructor
  · intro t h10 h20
    unfold stageNameOf
    simp [h10, h20]
  · intro entity steps fi fa s hs hstage
    obtain ⟨am, ai, heq⟩ := getEntityPluginPipeline_fst entity steps fi fa
    rw [heq]
    constructor
    · show s.name ∈ (steps.map (formatStep am ai)).map (fun f => f.name)
      exact List.mem_map_of_mem _ (List.mem_map_of_mem _ hs)
    · refine ⟨formatStep am ai s, List.mem_map_of_mem _ hs, rfl, rfl, rfl, ?_⟩
      intro g hg hbucket
      have hOK : stageOKb (formatStep am ai s).stage = true :=
        buildMessageGroups_bucket_stages (steps.map (formatStep am ai)) g hg
          (formatStep am ai s) hbucket
      rw [show (formatStep am ai s).stage = s.stage from rfl] at hOK
      rw [hstage] at hOK
      exact Bool.false_ne_true hOK

/-- C9 witness: the labeling and bucket behavior at the concrete stage
value 30. -/
theorem stage_labeling_witness :
    ((30 : Int) ≠ 10 ∧ (30 : Int) ≠ 20 ∧ stageNameOf 30 = "PostOperation") ∧
    (stageOKb (mkRawStep "id9" "S9" (some "Update") 30 1 none).stage = false ∧
      ("S9" ∈ (getEntityPluginPipeline "account"
          [mkRawStep "id9" "S9" (some "Update") 30 1 none]
          (fun _ => []) (fun _ => none)).1.executionOrder ∧
        ∃ f, f ∈ (getEntityPluginPipeline "account"
            [mkRawStep "id9" "S9" (some "Update") 30 1 none]
            (fun _ => []) (fun _ => none)).1.steps ∧
          f.name = "S9" ∧ f.stage = (30 : Int) ∧
          f.stageName = stageNameOf 30 ∧
          ∀ g, g ∈ (getEntityPluginPipeline "account"
              [mkRawStep "id9" "S9" (some "Update") 30 1 none]
              (fun _ => []) (fun _ => none)).1.messages →
            f ∉ bucketSteps g)) :=
  ⟨⟨by decide, by decide,
    stage_labeling_and_bucket_membership.1 30 (by decide) (by decide)⟩,
   ⟨by decide,
    stage_labeling_and_bucket_membership.2 "account"
      [mkRawStep "id9" "S9" (some "Update") 30 1 none]
      (fun _ => []) (fun _ => none)
      (mkRawStep "id9" "S9" (some "Update") 30 1 none)
      (by decide) (by decide)⟩⟩
